import Mathlib

/-!
Verification of the WhatsApp summarizer core (formatter, chunker,
summarization pipeline) against its natural-language specification.

The token counter (`countTokens` in `src/lib/tokenizer.js`) wraps the
external `tiktoken` library, so it is modelled as an abstract parameter
`tok : String → Nat` throughout; the only fact the source guarantees about
it is `countTokens('') = 0` (the `if (!text) return 0` guard), which enters
theorems as an explicit hypothesis where needed.

JavaScript `String.prototype.length`/`substring` count UTF-16 units; the
embedding uses Lean character counts (`String.length`, `String.take`),
which agree on the ASCII texts manipulated here.
-/

namespace WhatsappSummarizer

/-! ## Data model (spec section 3, normal-operation message records)

A `Msg` is the well-formed message record of the spec data model: the shape
produced by `formatMessage` in `src/lib/formatting.js` during normal
operation (every field present and string-typed, `quotedMsg` optional with
both fields strings).  The timestamp instant is carried as milliseconds; the
source renders it through `new Date(...)`, whose local-time hour/minute
extraction is modelled UTC-style below. -/

structure Quoted where
  author : String
  body : String
deriving DecidableEq, Repr

structure Msg where
  timestamp : Nat
  author : String
  body : String
  hasMedia : Bool
  fromMe : Bool
  quotedMsg : Option Quoted
deriving DecidableEq, Repr

/-! ## Message formatter (`src/lib/formatting.js`, `formatMessageCompact`) -/

/-- JS `s.substring(0, n)` (equivalently Lean `String.take`, restated over
the character list so that it reduces by computation). -/
def strTake (s : String) (n : Nat) : String :=
  String.mk (s.data.take n)

/-- JS `s.trim()` (equivalently Lean `String.trim`, restated over the
character list so that it reduces by computation): strip leading and
trailing whitespace. -/
def jsTrim (s : String) : String :=
  String.mk (((s.data.dropWhile Char.isWhitespace).reverse.dropWhile Char.isWhitespace).reverse)

/-- JS `s.includes('@')`. -/
def containsAt (s : String) : Bool :=
  s.data.contains '@'

/-- JS `s.split('@')[0]`: the prefix before the first `'@'`. -/
def beforeAt (s : String) : String :=
  String.mk (s.data.takeWhile (fun c => c ≠ '@'))

/-- JS `n.toString().padStart(2, '0')` for the minutes field. -/
def padStart2 (s : String) : String :=
  if s.length < 2 then "0" ++ s else s

/-- Model of the JS time rendering
`` `${date.getHours()}:${date.getMinutes().toString().padStart(2, '0')}` ``
on a millisecond timestamp (UTC reading of the local-time accessors). -/
def jsTimeHM (ms : Nat) : String :=
  toString (ms / 3600000 % 24) ++ ":" ++ padStart2 (toString (ms / 60000 % 60))

/-- JS `const maxMsgLength = 200` in `formatMessageCompact`. -/
def maxMsgLength : Nat := 200

/-- Direct translation of `formatMessageCompact` (formatting.js lines 6-39)
on well-formed records.  Returns `none` exactly where the JS returns `null`:
`if (!msg.body || msg.body.trim() === '' || msg.hasMedia) return null`. -/
def formatMessageCompact (msg : Msg) : Option String :=
  if msg.body = "" ∨ jsTrim msg.body = "" ∨ msg.hasMedia then none
  else
    let timeStr := jsTimeHM msg.timestamp
    let body :=
      if maxMsgLength < msg.body.length then strTake msg.body maxMsgLength ++ "..."
      else msg.body
    let author :=
      if msg.author ≠ "" ∧ containsAt msg.author then beforeAt msg.author
      else msg.author
    let replyContext :=
      match msg.quotedMsg with
      | none => ""
      | some q =>
        let quotedPreview :=
          if 60 < q.body.length then strTake q.body 60 ++ "..." else q.body
        " [replying to " ++ q.author ++ ": \"" ++ quotedPreview ++ "\"]"
    some ("[" ++ timeStr ++ "] " ++ author ++ ": " ++ body ++ replyContext)

/-! ## Chunker (`src/lib/tokenizer.js`, `createTokenBasedChunks`) -/

/-- JS `const systemOverheadTokens = 500`. -/
def systemOverheadTokens : Nat := 500

/-- Default of `config.llm.maxContextForMessages` (`MAX_CONTEXT_FOR_MESSAGES`,
`config/config.js`): 3000. -/
def maxContextForMessages : Nat := 3000

/-- JS `const maxChunkTokens = Math.min(2000, config.llm.maxContextForMessages - systemOverheadTokens)`. -/
def maxChunkTokens : Nat := min 2000 (maxContextForMessages - systemOverheadTokens)

/-- The truncation marker appended by the chunker safeguard. -/
def truncMarker : String := "... [message truncated due to length]"

/-- The in-place replacement the chunker safeguard applies to a formatted
line whose own token count exceeds 75% of `maxChunkTokens`
(`msgTokens > maxChunkTokens * 0.75`, rendered exactly over integers as
`4 * msgTokens > 3 * maxChunkTokens`): first
`Math.floor(maxChunkTokens * 0.5)` characters plus the marker. -/
def truncIfOverLong (tok : String → Nat) (m : String) : String :=
  if maxChunkTokens * 3 < tok m * 4 then strTake m (maxChunkTokens / 2) ++ truncMarker
  else m

/-- Loop state of `createTokenBasedChunks`: emitted chunks, current chunk,
running token count. -/
structure ChunkSt where
  chunks : List (List String)
  cur : List String
  cnt : Nat
deriving Repr

/-- One iteration of the `for (const formattedMsg of formattedMessages)`
loop body of `createTokenBasedChunks` (tokenizer.js lines 109-131). -/
def chunkStep (tok : String → Nat) (st : ChunkSt) (m : String) : ChunkSt :=
  let msgTokens := tok m
  let st :=
    if maxChunkTokens < st.cnt + msgTokens ∧ st.cur ≠ [] then
      ChunkSt.mk (st.chunks ++ [st.cur]) [] 0
    else st
  let cur := st.cur ++ [m]
  let cnt := st.cnt + msgTokens
  if maxChunkTokens * 3 < msgTokens * 4 then
    let cur2 := cur.dropLast ++ [strTake m (maxChunkTokens / 2) ++ truncMarker]
    ChunkSt.mk st.chunks cur2 (cur2.foldl (fun s x => s + tok x) 0)
  else
    ChunkSt.mk st.chunks cur cnt

/-- The `if (currentChunk.length > 0) chunks.push(currentChunk)` epilogue
of `createTokenBasedChunks`. -/
def chunkFinish (st : ChunkSt) : List (List String) :=
  if st.cur ≠ [] then st.chunks ++ [st.cur] else st.chunks

/-- Direct translation of `createTokenBasedChunks` (tokenizer.js lines
91-139): format all messages, drop nulls, fold the accumulation loop, then
emit the trailing non-empty chunk. -/
def createTokenBasedChunks {α : Type} (tok : String → Nat) (messages : List α)
    (formatter : α → Option String) : List (List String) :=
  chunkFinish (((messages.map formatter).filterMap id).foldl (chunkStep tok) (ChunkSt.mk [] [] 0))

/-! ## Recursive-split post-pass (`src/services/llm.js` lines 20-38)

The JS pass walks the chunk array; any chunk whose joined text exceeds 2000
tokens is spliced into its two line-midpoint halves and both are
re-examined (`i--`).  That is exactly a worklist: examine the head; if
small, move past it; if oversized, push both halves back in its place.
The JS loop has no termination guarantee (a one-line oversized chunk
splices `[[], itself]` forever), so the pass is embedded fuel-indexed:
`none` means the loop is still running after `fuel` iterations, and actual
termination is `∃ fuel`, below. -/

/-- JS `chunk.join('\n')`. -/
def joinNL (c : List String) : String := String.intercalate "\n" c

/-- Fuel-indexed worklist form of the splice loop.  Each constructor call
consumes one fuel unit, so the JS loop terminates on an input iff some fuel
suffices. -/
def splitSteps (tok : String → Nat) : Nat → List (List String) → Option (List (List String))
  | _, [] => some []
  | 0, _ :: _ => none
  | fuel + 1, c :: rest =>
    if 2000 < tok (joinNL c) then
      let midpoint := c.length / 2
      splitSteps tok fuel (c.take midpoint :: c.drop midpoint :: rest)
    else
      (splitSteps tok fuel rest).map (fun out => c :: out)

/-- Termination of the JS splice loop on a chunk sequence. -/
def splitTerminates (tok : String → Nat) (cs : List (List String)) : Prop :=
  ∃ fuel, (splitSteps tok fuel cs).isSome

/-! ## Prompt templates (`src/prompts/*.js`), transcribed verbatim -/

/-- Template of `getInitialPrompt(chatText)` (`src/prompts/initial.js`). -/
def getInitialPrompt (chatText : String) : String :=
  "You are analyzing WhatsApp messages from a group conversation.\n\nSummarize ONLY the information explicitly present in these chat messages. Focus on:\n- Main topics discussed with DIRECT QUOTES when possible\n- Factual information shared by participants (avoid interpretations)\n- Questions asked and their exact answers if provided\n- Decisions that were explicitly stated\n- DO NOT add any information, names, or topics not directly mentioned in the messages\n\nIMPORTANT: When you see [replying to X: \"message\"] in a message, this indicates the message is a reply to a previous message by user X. Use this reply context to:\n- Better understand conversation threads\n- Connect related messages even when they\x27re separated by other messages\n- Identify question-answer pairs when someone replies to a question\n- Follow the flow of discussions on specific topics\n\nIf something is unclear or ambiguous, indicate this with phrases like \"possibly discussing\" or \"unclear context about\". If you\x27re unsure about a topic or detail, acknowledge the uncertainty rather than guessing.\n\nFormat with clear topic headings and bullet points using only information from the chat.\n\nCHAT MESSAGES:\n"
  ++ chatText ++ "\n\nSUMMARY:"

/-- Template of `getContinuationPrompt(batchSummary, chatText)`
(`src/prompts/continuation.js`). -/
def getContinuationPrompt (batchSummary chatText : String) : String :=
  "Continue analyzing this WhatsApp conversation.\n\nCurrent summary:\n"
  ++ batchSummary ++
  "\n\nCRITICAL INSTRUCTIONS:\n- Include ONLY information present in these new messages\n- If the new messages contradict the summary, mention both perspectives explicitly\n- Use \"according to the conversation\" instead of assuming facts\n- Maintain uncertainty markers like \"possibly\" or \"appears to be\" \n- Do not add any details that seem speculative unless directly quoted\n\nIncorporate these additional messages while maintaining the same format and structure:\n- Add new topics if they appear\n- Expand on previously mentioned topics with new information\n- Note any resolution to previously mentioned questions or discussions\n\nADDITIONAL MESSAGES:\n"
  ++ chatText ++ "\n\nUPDATED SUMMARY:"

/-- Template of `getConsolidationPrompt(fullSummary, batchSummary)`
(`src/prompts/consolidation.js`). -/
def getConsolidationPrompt (fullSummary batchSummary : String) : String :=
  "I have two summaries from different parts of the same WhatsApp conversation. Create a cohesive summary that integrates both.\n\nCRITICAL INSTRUCTIONS:\n- Include ONLY information present in either summary\n- If the summaries contradict each other, mention both perspectives explicitly\n- Use \"according to the conversation\" instead of assuming facts\n- Maintain uncertainty markers like \"possibly\" or \"appears to be\" from the original summaries\n- Remove any details that seem speculative unless directly quoted\n\nFORMAT REQUIREMENTS:\n1. Begin with a high-level overview (2-3 sentences) of CONFIRMED topics only\n2. Organize by main discussion topics with clear headings\n3. Use bullet points for key points under each topic\n4. Highlight any decisions made or action items\n5. Maintain chronological flow where relevant\n\nFIRST SUMMARY:\n"
  ++ fullSummary ++ "\n\nSECOND SUMMARY:\n" ++ batchSummary ++ "\n\nCOMBINED SUMMARY:"

/-- Template of `getRefinementPrompt(fullSummary)` (`src/prompts/refinement.js`). -/
def getRefinementPrompt (fullSummary : String) : String :=
  "You\x27re creating a final executive summary of a WhatsApp group conversation.\n\nCRITICAL INSTRUCTIONS:\n- Do NOT introduce new information not present in the draft summary\n- Maintain all uncertainty markers (like \"possibly\" or \"appears\")\n- Keep all contradictory perspectives mentioned in the original\n- Clearly separate facts from opinions in the conversation\n\nPlease refine the following summary into a professional, well-organized report format with:\n\n1. OVERVIEW: A brief introduction and high-level summary (1-2 paragraphs)\n2. KEY TOPICS: Main discussion areas with bullet points for important details\n3. DECISIONS & ACTION ITEMS: Clear list of any decisions made and actions assigned (if any)\n4. NOTABLE MENTIONS: Any important links, events, or references shared in the chat\n\nKeep the tone professional and focus on clarity and readability.\n\nDRAFT SUMMARY:\n"
  ++ fullSummary ++ "\n\nREFINED SUMMARY:"

/-- System instruction of `getSummarizationSystemPrompt()` (`src/prompts/system.js`). -/
def getSummarizationSystemPrompt : String :=
  "You are an expert analyst who creates clear, structured summaries of group conversations. ONLY include information explicitly stated in the messages. Do not add any information not directly present in the input."

/-- System instruction of `getConsolidationSystemPrompt()` (`src/prompts/system.js`). -/
def getConsolidationSystemPrompt : String :=
  "You are an expert analyst who creates clear, structured summaries of group conversations. Only include information explicitly stated in the summaries."

/-- System instruction of `getRefinementSystemPrompt()` (`src/prompts/system.js`). -/
def getRefinementSystemPrompt : String :=
  "You are an expert analyst who creates clear, structured executive summaries. Only include information explicitly stated in the original summary."

/-! ## Summarization pipeline (`src/services/llm.js`, `summarizeWithLLM`)

The completion client (axios POST to LMStudio) is an external collaborator;
it is modelled as an oracle `Client` giving the outcome of the n-th
completion call of a run: `Except.error` models a thrown transport error or
a malformed response (`response.data.choices[0]` blowing up), `Except.ok s`
a response whose summary text is `s`.  A run's outwardly visible behaviour
is its returned string plus the trace of requests it submitted (in order),
an `errored` flag (whether the `catch` block produced the result) and the
number of times the 3800-token safety `break` fired. -/

/-- Which call site of `summarizeWithLLM` issues a request. -/
inductive ReqKind
  | chunkInitial
  | chunkContinuation
  | consolidation
  | refinement
deriving DecidableEq, Repr

/-- One completion request as submitted: call-site kind, system
instruction, user prompt. -/
structure Req where
  kind : ReqKind
  system : String
  prompt : String
deriving DecidableEq, Repr

/-- Oracle for the completion client: outcome of the n-th call of a run. -/
abbrev Client : Type := Nat → Except Unit String

/-- JS `const BATCH_SIZE = 2` (llm.js line 43). -/
def BATCH_SIZE : Nat := 2

/-- The prompt-budget ceiling of the per-chunk safety check
(`if (promptTokens > 3800)`, llm.js line 127). -/
def maxPromptTokens : Nat := 3800

/-- The fixed fallback string returned by the `catch` block (llm.js line 275). -/
def fallbackMessage : String :=
  "Failed to generate summary. Please check if LMStudio is running locally on port 1234 or if input is too large for model context."

/-- Observable outcome of one `summarizeWithLLM` run. -/
structure RunOut where
  result : String
  trace : List Req
  errored : Bool
  breaks : Nat
deriving DecidableEq, Repr

/-- Submit one completion request: the n-th call of the run, where n is the
number of requests already traced.  On a client error the failing request
is still recorded (it was submitted), and the error propagates. -/
def callClient (client : Client) (trace : List Req) (kind : ReqKind)
    (system prompt : String) : Except (List Req) (String × List Req) :=
  match client trace.length with
  | Except.ok text => Except.ok (text, trace ++ [Req.mk kind system prompt])
  | Except.error _ => Except.error (trace ++ [Req.mk kind system prompt])

/-- The inner `for (let i = 0; i < currentBatchChunks.length; i++)` loop of
`summarizeWithLLM` (llm.js lines 58-159): per-chunk prompt choice, the
3800-token safety `break` (counted in `breaks`), the completion call, and
the batch-summary update. -/
def processBatchChunks (tok : String → Nat) (client : Client) :
    List (List String) → Nat → String → List Req → Nat →
    Except (List Req × Nat) (String × List Req × Nat)
  | [], _, batchSummary, trace, breaks => Except.ok (batchSummary, trace, breaks)
  | chunk :: rest, i, batchSummary, trace, breaks =>
    let chatText := joinNL chunk
    let prompt :=
      if i = 0 ∧ batchSummary = "" then getInitialPrompt chatText
      else getContinuationPrompt batchSummary chatText
    if maxPromptTokens < tok prompt then
      Except.ok (batchSummary, trace, breaks + 1)
    else
      let kind :=
        if i = 0 ∧ batchSummary = "" then ReqKind.chunkInitial
        else ReqKind.chunkContinuation
      match callClient client trace kind getSummarizationSystemPrompt prompt with
      | Except.error trace2 => Except.error (trace2, breaks)
      | Except.ok (chunkSummary, trace2) =>
        let batchSummary2 :=
          if i = 0 then chunkSummary else batchSummary ++ "\n\n" ++ chunkSummary
        processBatchChunks tok client rest (i + 1) batchSummary2 trace2 breaks

/-- JS batching by `messageChunks.slice(batchIndex * 2, batchIndex * 2 + 2)`
over `batchIndex < Math.ceil(length / 2)`: consecutive groups of
`BATCH_SIZE = 2` chunks, the last possibly of one. -/
def toBatches : List (List String) → List (List (List String))
  | [] => []
  | [c] => [[c]]
  | c1 :: c2 :: rest => [c1, c2] :: toBatches rest

/-- The outer batch loop of `summarizeWithLLM` (llm.js lines 47-220):
process the batch's chunks, then either seed the running summary (first
non-empty result) or issue a consolidation call. -/
def processBatches (tok : String → Nat) (client : Client) :
    List (List (List String)) → String → List Req → Nat →
    Except (List Req × Nat) (String × List Req × Nat)
  | [], fullSummary, trace, breaks => Except.ok (fullSummary, trace, breaks)
  | batch :: rest, fullSummary, trace, breaks =>
    match processBatchChunks tok client batch 0 "" trace breaks with
    | Except.error e => Except.error e
    | Except.ok (batchSummary, trace2, breaks2) =>
      if fullSummary = "" then
        processBatches tok client rest batchSummary trace2 breaks2
      else
        match callClient client trace2 ReqKind.consolidation
            getConsolidationSystemPrompt
            (getConsolidationPrompt fullSummary batchSummary) with
        | Except.error trace3 => Except.error (trace3, breaks2)
        | Except.ok (resp, trace3) => processBatches tok client rest resp trace3 breaks2

/-- Body of `summarizeWithLLM` after chunking: batch processing, the
refinement gate `if (messageChunks.length > BATCH_SIZE)` (llm.js line 223),
and the `catch` block yielding `fallbackMessage` (llm.js lines 270-276). -/
def runPipeline (tok : String → Nat) (client : Client)
    (messageChunks : List (List String)) : RunOut :=
  match processBatches tok client (toBatches messageChunks) "" [] 0 with
  | Except.error (trace, breaks) => RunOut.mk fallbackMessage trace true breaks
  | Except.ok (fullSummary, trace, breaks) =>
    if BATCH_SIZE < messageChunks.length then
      match callClient client trace ReqKind.refinement getRefinementSystemPrompt
          (getRefinementPrompt fullSummary) with
      | Except.error trace2 => RunOut.mk fallbackMessage trace2 true breaks
      | Except.ok (resp, trace2) => RunOut.mk resp trace2 false breaks
    else RunOut.mk fullSummary trace false breaks

/-- Full `summarizeWithLLM` (llm.js lines 12-277): chunk, run the
recursive-split pass (fuel-indexed; `none` models the JS loop still
spinning), then run the batched pipeline on the resulting chunk array. -/
def summarizeWithLLM (tok : String → Nat) (client : Client) (fuel : Nat)
    (messages : List Msg) : Option RunOut :=
  (splitSteps tok fuel (createTokenBasedChunks tok messages formatMessageCompact)).map
    (runPipeline tok client)

/-! ## Dynamic-field model of formatting (`src/lib/formatting.js`) for
malformed records

JavaScript records can lack fields; reading a property of `undefined`
throws a `TypeError`, while most other uses of `undefined` silently render
(`` `${undefined}` `` gives `"undefined"`, `new Date(undefined)` is an
Invalid Date whose accessors give `NaN`, but whose `toISOString()` throws).
To settle claims about malformed input, both formatting functions are
re-embedded over records with optional fields, returning
`Except Unit _` where `Except.error ()` marks a thrown `TypeError`
(or `RangeError` from `toISOString`). -/

/-- Possibly-missing quoted-message record as read by `formatMessageCompact`. -/
structure JsQuoted where
  author : Option String
  body : Option String
deriving DecidableEq, Repr

/-- Possibly-missing quoted-message record inside `msg._data`. -/
structure JsDataQuoted where
  notifyName : Option String
  body : Option String
deriving DecidableEq, Repr

/-- Possibly-missing `msg._data` record as read by `formatMessage`. -/
structure JsData where
  notifyName : Option String
  quotedMsg : Option JsDataQuoted
deriving DecidableEq, Repr

/-- A raw message record with possibly-missing fields (`none` models an
absent / `undefined` field; booleans are JS truthiness of the field). -/
structure JsMsg where
  timestamp : Option Nat
  from? : Option String
  author : Option String
  body : Option String
  hasMedia : Bool
  fromMe : Bool
  quotedMsg : Option JsQuoted
  uData : Option JsData
deriving DecidableEq, Repr

/-- JS falsiness of a possibly-missing string (`undefined` and `''` are falsy). -/
def jsFalsyStr : Option String → Bool
  | none => true
  | some s => s = ""

/-- JS `!msg.body || msg.body.trim() === ''` on a possibly-missing body. -/
def jsBlankBody : Option String → Bool
  | none => true
  | some s => s = "" || jsTrim s = ""

/-- JS `a || b` on a possibly-missing string with a string default. -/
def jsOrStr (o : Option String) (dflt : String) : String :=
  match o with
  | some s => if s = "" then dflt else s
  | none => dflt

/-- Translation of `formatMessageCompact` over raw records, with the exact JS failure
mode: when `msg.quotedMsg` is present (truthy) but `msg.quotedMsg.body` is
absent, `msg.quotedMsg.body.length` throws a `TypeError`
(formatting.js line 32).  Every other missing field renders harmlessly
(`new Date(undefined)` gives `"NaN:NaN"`, `` `${undefined}` `` gives
`"undefined"`). -/
def formatMessageCompactJs (m : JsMsg) : Except Unit (Option String) :=
  if jsBlankBody m.body || m.hasMedia then Except.ok none
  else
    let timeStr :=
      match m.timestamp with
      | some t => jsTimeHM t
      | none => "NaN:NaN"
    let body :=
      match m.body with
      | some b => if maxMsgLength < b.length then strTake b maxMsgLength ++ "..." else b
      | none => ""
    let author :=
      match m.author with
      | none => "undefined"
      | some a => if a ≠ "" ∧ containsAt a then beforeAt a else a
    match m.quotedMsg with
    | none =>
      Except.ok (some ("[" ++ timeStr ++ "] " ++ author ++ ": " ++ body))
    | some q =>
      match q.body with
      | none => Except.error ()
      | some qb =>
        let quotedPreview := if 60 < qb.length then strTake qb 60 ++ "..." else qb
        let qAuthor := jsOrStr q.author "undefined"
        Except.ok (some ("[" ++ timeStr ++ "] " ++ author ++ ": " ++ body ++
          " [replying to " ++ qAuthor ++ ": \"" ++ quotedPreview ++ "\"]"))

/-- Output shape of `formatMessage` (the normalized record).  The ISO-8601
rendering of the timestamp is kept as the scaled epoch value
(`msg.timestamp * 1000`); the string rendering is injective in it and no
claim inspects it. -/
structure FmtOut where
  timestampMs : Nat
  from? : Option String
  author : String
  body : Option String
  hasMedia : Bool
  fromMe : Bool
  quotedMsg : Option Quoted
deriving DecidableEq, Repr

/-- Translation of `formatMessage` (formatting.js lines 47-68) over raw records (the
`isFormatted = false` path), with the exact JS failure modes: an absent
`timestamp` makes `new Date(msg.timestamp * 1000).toISOString()` throw a
`RangeError`, and an absent `_data` on a non-self message makes
`msg._data.notifyName` throw a `TypeError`. -/
def formatMessageJs (m : JsMsg) : Except Unit FmtOut :=
  let quotedInfo : Option Quoted :=
    match m.uData with
    | none => none
    | some d =>
      match d.quotedMsg with
      | none => none
      | some dq => some (Quoted.mk (jsOrStr dq.notifyName "Unknown") ((dq.body).getD ""))
  match m.timestamp with
  | none => Except.error ()
  | some ts =>
    match (if m.fromMe then Except.ok "You"
           else match m.uData with
                | none => Except.error ()
                | some d => Except.ok (jsOrStr d.notifyName (jsOrStr m.author "Unknown"))
           : Except Unit String) with
    | Except.error e => Except.error e
    | Except.ok author =>
      Except.ok (FmtOut.mk (ts * 1000) m.from? author m.body m.hasMedia m.fromMe quotedInfo)

/-- Whether an `Except Unit` computation completed without throwing. -/
def noThrow {β : Type} : Except Unit β → Bool
  | Except.ok _ => true
  | Except.error _ => false

/-! ## Observation helpers and concrete instances used by the theorems -/

/-- Number of traced requests issued from a given call site. -/
def countKind (k : ReqKind) (tr : List Req) : Nat :=
  tr.countP (fun r => decide (r.kind = k))

/-- The trace produced by a (possibly failed) pipeline stage. -/
def traceOfRes : Except (List Req × Nat) (String × List Req × Nat) → List Req
  | Except.ok (_, tr, _) => tr
  | Except.error (tr, _) => tr

/-- Per-chunk (initial or continuation) requests in a trace all satisfy the
3800-token prompt budget. -/
def promptBudgetOk (tok : String → Nat) (tr : List Req) : Prop :=
  ∀ r ∈ tr,
    (r.kind = ReqKind.chunkInitial ∨ r.kind = ReqKind.chunkContinuation) →
    tok r.prompt ≤ maxPromptTokens

/-- Whether the n-th completion call of the oracle succeeds. -/
def clientOk (client : Client) (n : Nat) : Bool :=
  match client n with
  | Except.ok _ => true
  | Except.error _ => false

/-- All calls recorded in the trace succeeded. -/
def callsOkBefore (client : Client) (tr : List Req) : Prop :=
  ∀ j, j < tr.length → clientOk client j = true

/-- The trace ends at the run's first failing call: the last recorded call
failed and every earlier one succeeded (so nothing was submitted past the
failure). -/
def stoppedAtError (client : Client) (tr : List Req) : Prop :=
  tr ≠ [] ∧ clientOk client (tr.length - 1) = false ∧
    ∀ j, j < tr.length - 1 → clientOk client j = true

/-- Termination measure for the splice loop: an oversized chunk of `n ≥ 2`
lines is replaced by two chunks of fewer lines, and `3^a + 3^b < 3^(a+b)`
for `a, b ≥ 1`, so the measure strictly drops at every loop iteration. -/
def chunkMeasure (cs : List (List String)) : Nat :=
  (cs.map (fun c => 3 ^ c.length)).sum

/-- Default run outcome used to project `Option RunOut` in closed
statements; its `errored := true` cannot be mistaken for a completed run. -/
def dfltOut : RunOut := RunOut.mk fallbackMessage [] true 0

/-- Tokenizer exhibiting divergence of the splice loop: every non-empty
string counts 2001 tokens (consistent with `countTokens('') = 0`). -/
def tokBad : String → Nat := fun s => if s.length = 0 then 0 else 2001

/-- Tokenizer for the oversized-consolidation run: short strings (chat
lines) count 1001 tokens, mid-sized strings their length, and strings
longer than 2500 characters count 9999 tokens. -/
def tokCE1 : String → Nat := fun s =>
  if s.length ≤ 50 then 1001 else if s.length ≤ 1300 then s.length else 9999

/-- Client for the oversized-consolidation run: the third call returns a
601-character summary, all others return `"A"`. -/
def clientCE1 : Client := fun n =>
  if n = 2 then Except.ok (String.mk (List.replicate 601 'B')) else Except.ok "A"

/-- Three short messages that chunk into three single-line chunks under
`tokCE1`/`tokCE7` (each line counts 1001 tokens, two exceed 2000). -/
def msgsCE1 : List Msg :=
  [Msg.mk 0 "a" "x1" false false none, Msg.mk 0 "a" "x2" false false none,
   Msg.mk 0 "a" "x3" false false none]

/-- Tokenizer for the budget-break run: chat lines count 1001 tokens and
any string of at least 1200 characters (the initial prompt over the
first, 40-character line) counts 9999 tokens. -/
def tokCE7 : String → Nat := fun s =>
  if s.length ≤ 50 then 1001 else if s.length < 1200 then s.length else 9999

/-- Client returning the fixed non-empty summary `"A"` on every call. -/
def clientA : Client := fun _ => Except.ok "A"

/-- Client failing on every call. -/
def clientErr : Client := fun _ => Except.error ()

/-- Messages for the budget-break run: the first line is 40 characters
long (so its initial prompt reaches 1221 ≥ 1200 characters and trips the
3800-token safety break), the others are short. -/
def msgsCE7 : List Msg :=
  [Msg.mk 0 "a" "abcdefghijklmnopqrstuvwxyz1234" false false none,
   Msg.mk 0 "a" "y" false false none, Msg.mk 0 "a" "z" false false none]

/-- Cheap tokenizer for witness runs. -/
def tokW : String → Nat := fun s => s.length / 100

/-- One-message input for witness runs (a single one-line chunk). -/
def msgsW : List Msg := [Msg.mk 0 "a" "hi" false false none]

/-- Outcome of the basic witness run (one chunk, one batch, no error). -/
def outW : RunOut := (summarizeWithLLM tokW clientA 5 msgsW).getD dfltOut

/-- The single request of the basic witness run. -/
def reqW : Req := outW.trace.headD (Req.mk ReqKind.refinement "" "")

/-- Outcome of the witness run against the always-failing client. -/
def outErr : RunOut := (summarizeWithLLM tokW clientErr 5 msgsW).getD dfltOut

/-- Outcome of the three-chunk witness run (refinement fires). -/
def outW3 : RunOut := (summarizeWithLLM tokCE1 clientCE1 10 msgsCE1).getD dfltOut

/-! ## Claim C8: compact-formatter filtering -/

/-- C8: `formatMessageCompact` returns `null` for every message whose body
is empty or whitespace-only or whose `hasMedia` flag is set, regardless of
all other fields; for every other message it returns a formatted line. -/
theorem c8_compact_null_filtering (msg : Msg) :
    ((jsTrim msg.body = "" ∨ msg.hasMedia = true) → formatMessageCompact msg = none) ∧
    ((jsTrim msg.body ≠ "" ∧ msg.hasMedia = false) →
      (formatMessageCompact msg).isSome = true) := by
  constructor
  · intro h
    unfold formatMessageCompact
    rw [if_pos]
    rcases h with h | h
    · exact Or.inr (Or.inl h)
    · exact Or.inr (Or.inr h)
  · rintro ⟨h1, h2⟩
    unfold formatMessageCompact
    rw [if_neg]
    · rfl
    · rintro (h | h | h)
      · apply h1; rw [h]; decide
      · exact h1 h
      · rw [h2] at h; exact absurd h (by decide)

/-- Witness for C8 at two concrete messages: a media message is filtered,
a plain text message is formatted. -/
theorem c8_witness :
    formatMessageCompact (Msg.mk 0 "a" "hi" true false none) = none ∧
    (formatMessageCompact (Msg.mk 0 "a" "hi" false false none)).isSome = true :=
  ⟨(c8_compact_null_filtering (Msg.mk 0 "a" "hi" true false none)).1 (Or.inr rfl),
   (c8_compact_null_filtering (Msg.mk 0 "a" "hi" false false none)).2 ⟨by decide, rfl⟩⟩

/-! ## Claim C9: formatting on malformed records -/

/-- C9 (amended): on raw records with possibly-missing fields, the
formatting functions throw in exactly three situations —
`formatMessageCompact` when a present `quotedMsg` lacks a body (and the
message is not filtered out first), `formatMessage` when `timestamp` is
absent or when a non-self-sent record lacks `_data`.  On every other
record, including every record arising in normal operation, they return a
result or filter the record via `null`. -/
theorem c9_throw_characterization (m : JsMsg) :
    (noThrow (formatMessageCompactJs m) =
      (jsBlankBody m.body || m.hasMedia ||
        m.quotedMsg.elim true (fun q => q.body.isSome))) ∧
    (noThrow (formatMessageJs m) =
      (m.timestamp.isSome && (m.fromMe || m.uData.isSome))) := by
  obtain ⟨ts, fr, au, bo, hm, fm, qm, ud⟩ := m
  constructor
  · by_cases hb : (jsBlankBody bo || hm) = true
    · simp [formatMessageCompactJs, noThrow, hb]
    · cases qm with
      | none => simp [formatMessageCompactJs, noThrow, hb]
      | some q =>
        cases hqb : q.body with
        | none => simp [formatMessageCompactJs, noThrow, hb, hqb]
        | some b => simp [formatMessageCompactJs, noThrow, hb, hqb]
  · cases ts with
    | none => simp [formatMessageJs, noThrow]
    | some t =>
      cases fm with
      | true => simp [formatMessageJs, noThrow]
      | false =>
        cases ud with
        | none => simp [formatMessageJs, noThrow]
        | some d => simp [formatMessageJs, noThrow]

/-- Counterexample to C9 as stated: a record with a non-empty body and a
quoted message lacking its body makes `formatMessageCompact` throw a
`TypeError` (`msg.quotedMsg.body.length` on `undefined`) instead of
filtering or returning a line. -/
theorem c9_counterexample :
    noThrow (formatMessageCompactJs
      (JsMsg.mk (some 0) none (some "a") (some "hi") false false
        (some (JsQuoted.mk (some "q") none)) none)) = false := by decide

/-! ## Claim C5: chunking preserves lines (up to the truncation safeguard) -/

/-- One chunker loop iteration appends exactly the (possibly truncated)
incoming line to the accumulated content. -/
theorem chunkStep_content (tok : String → Nat) (st : ChunkSt) (m : String) :
    (chunkStep tok st m).chunks.flatten ++ (chunkStep tok st m).cur =
      st.chunks.flatten ++ st.cur ++ [truncIfOverLong tok m] := by
  unfold chunkStep truncIfOverLong
  by_cases hf : maxChunkTokens < st.cnt + tok m ∧ st.cur ≠ [] <;>
    by_cases ht : maxChunkTokens * 3 < tok m * 4 <;>
      simp [hf, ht, List.dropLast_concat, List.flatten_append, List.append_assoc]

/-- The chunker fold appends exactly the (possibly truncated) processed
lines to the accumulated content. -/
theorem chunkFold_content (tok : String → Nat) (ms : List String) :
    ∀ st : ChunkSt,
      (ms.foldl (chunkStep tok) st).chunks.flatten ++ (ms.foldl (chunkStep tok) st).cur =
        st.chunks.flatten ++ st.cur ++ ms.map (truncIfOverLong tok) := by
  induction ms with
  | nil => intro st; simp
  | cons m ms ih =>
    intro st
    rw [List.foldl_cons, ih (chunkStep tok st m), chunkStep_content]
    simp [List.append_assoc]

/-- The chunker epilogue emits exactly the accumulated content. -/
theorem chunkFinish_content (st : ChunkSt) :
    (chunkFinish st).flatten = st.chunks.flatten ++ st.cur := by
  unfold chunkFinish
  split
  · simp [List.flatten_append]
  · next hc =>
    rw [not_not] at hc
    simp [hc]

/-- C5 (amended): the concatenation, in order, of all chunks produced by
`createTokenBasedChunks` equals the non-null formatted lines of the input
with every line whose token count exceeds 75% of `maxChunkTokens` replaced
in place by its truncation (first `maxChunkTokens / 2` characters plus the
truncation marker); no line is dropped, duplicated or reordered. -/
theorem c5_chunking_content {α : Type} (tok : String → Nat)
    (messages : List α) (formatter : α → Option String) :
    (createTokenBasedChunks tok messages formatter).flatten =
      ((messages.map formatter).filterMap id).map (truncIfOverLong tok) := by
  unfold createTokenBasedChunks
  rw [chunkFinish_content,
    chunkFold_content tok ((messages.map formatter).filterMap id) (ChunkSt.mk [] [] 0)]
  simp

/-- Counterexample to C5 as stated: a single formatted line of 16
characters counting 1600 tokens (over 75% of the 2000-token chunk budget)
is replaced by its truncated form, so the chunk concatenation differs from
the formatted input lines. -/
theorem c5_counterexample :
    (createTokenBasedChunks (fun s => 100 * s.length) ["aaaaaaaaaaaaaaaa"] some).flatten ≠
      ((["aaaaaaaaaaaaaaaa"].map (some : String → Option String)).filterMap id) := by
  decide

/-! ## Claim C2: post-pass token bound -/

/-- When the splice loop exits, every chunk it emitted passed the
2000-token check (the loop only ever moves past a chunk after checking it). -/
theorem splitSteps_sound (tok : String → Nat) :
    ∀ (fuel : Nat) (cs out : List (List String)),
      splitSteps tok fuel cs = some out → ∀ c ∈ out, tok (joinNL c) ≤ 2000 := by
  intro fuel
  induction fuel with
  | zero =>
    intro cs out h c hc
    cases cs with
    | nil =>
      simp only [splitSteps, Option.some.injEq] at h
      subst h
      cases hc
    | cons c0 rest => simp [splitSteps] at h
  | succ n ih =>
    intro cs out h c hc
    cases cs with
    | nil =>
      simp only [splitSteps, Option.some.injEq] at h
      subst h
      cases hc
    | cons c0 rest =>
      simp only [splitSteps] at h
      split at h
      · exact ih _ _ h c hc
      · next hle =>
        cases hsp : splitSteps tok n rest with
        | none => rw [hsp] at h; cases h
        | some out' =>
          rw [hsp] at h
          simp only [Option.map_some', Option.some.injEq] at h
          subst h
          cases hc with
          | head => exact Nat.le_of_not_lt hle
          | tail _ hmem => exact ih _ _ hsp c hmem

/-- C2: every chunk left after the recursive-split pass joins to at most
2000 tokens, except possibly a single-line chunk (in fact the bound holds
for single-line chunks as well whenever the pass exits). -/
theorem c2_post_pass_token_bound (tok : String → Nat) (fuel : Nat)
    (cs out : List (List String)) (h : splitSteps tok fuel cs = some out) :
    ∀ c ∈ out, c.length = 1 ∨ tok (joinNL c) ≤ 2000 :=
  fun c hc => Or.inr (splitSteps_sound tok fuel cs out h c hc)

/-- Witness for C2 on a concrete two-line chunk under a length tokenizer. -/
theorem c2_witness :
    splitSteps (fun s => s.length) 5 [["a", "b"]] = some [["a", "b"]] ∧
    (["a", "b"].length = 1 ∨ (fun s : String => s.length) (joinNL ["a", "b"]) ≤ 2000) :=
  ⟨by decide,
   c2_post_pass_token_bound (fun s => s.length) 5 [["a", "b"]] [["a", "b"]] (by decide)
     ["a", "b"] (by decide)⟩

/-! ## Claim C6: termination of the recursive-split pass -/

/-- Joining a one-line chunk gives back the line. -/
theorem joinNL_singleton (l : String) : joinNL [l] = l := rfl

/-- Mapping over an option preserves `isSome`. -/
theorem isSome_optionMap {α β : Type} (f : α → β) (o : Option α) :
    (Option.map f o).isSome = o.isSome := by
  cases o <;> rfl

/-- More fuel never turns a finished splice loop back into a running one. -/
theorem splitSteps_fuel_mono (tok : String → Nat) :
    ∀ (n m : Nat) (cs : List (List String)), n ≤ m →
      (splitSteps tok n cs).isSome = true → (splitSteps tok m cs).isSome = true := by
  intro n
  induction n with
  | zero =>
    intro m cs _ h
    cases cs with
    | nil => simp [splitSteps]
    | cons c0 rest =>
      rw [show splitSteps tok 0 (c0 :: rest) = none from rfl] at h
      cases h
  | succ n ih =>
    intro m cs hnm h
    cases cs with
    | nil => simp [splitSteps]
    | cons c0 rest =>
      obtain ⟨m', rfl⟩ : ∃ m', m = m' + 1 :=
        ⟨m - 1, by omega⟩
      simp only [splitSteps] at h ⊢
      split at h <;> split
      · exact ih m' _ (by omega) h
      · next h1 h2 => exact absurd h1 h2
      · next h1 h2 => exact absurd h2 h1
      · rw [isSome_optionMap] at h ⊢
        exact ih m' _ (by omega) h

/-- Arithmetic core of the termination measure: splitting an `a + b`-line
chunk into an `a`-line and a `b`-line chunk strictly decreases the sum of
`3 ^ lines`. -/
theorem pow3_split (a b : Nat) (ha : 1 ≤ a) (hb : 1 ≤ b) :
    3 ^ a + 3 ^ b + 1 ≤ 3 ^ (a + b) := by
  have hx : 3 ≤ 3 ^ a := by
    calc 3 = 3 ^ 1 := by norm_num
    _ ≤ 3 ^ a := Nat.pow_le_pow_right (by norm_num) ha
  have hy : 3 ≤ 3 ^ b := by
    calc 3 = 3 ^ 1 := by norm_num
    _ ≤ 3 ^ b := Nat.pow_le_pow_right (by norm_num) hb
  have h1 : 3 * 3 ^ b ≤ 3 ^ a * 3 ^ b := Nat.mul_le_mul_right _ hx
  have h2 : 3 ^ a * 3 ≤ 3 ^ a * 3 ^ b := Nat.mul_le_mul_left _ hy
  rw [pow_add]
  nlinarith [hx, hy, h1, h2]

/-- Fuel `chunkMeasure cs` suffices for the splice loop whenever the empty
string is within budget (`countTokens('') = 0` in the source) and every
individual line is within the 2000-token bound. -/
theorem splitSteps_terminates_of_line_bound (tok : String → Nat)
    (h0 : tok "" ≤ 2000) :
    ∀ (n : Nat) (cs : List (List String)), chunkMeasure cs ≤ n →
      (∀ c ∈ cs, ∀ l ∈ c, tok l ≤ 2000) → (splitSteps tok n cs).isSome = true := by
  intro n
  induction n using Nat.strong_induction_on with
  | _ n ih =>
    intro cs hm hl
    cases cs with
    | nil => cases n <;> simp [splitSteps]
    | cons c rest =>
      have hpow : 1 ≤ 3 ^ c.length := Nat.one_le_pow _ _ (by norm_num)
      have hm' : chunkMeasure (c :: rest) = 3 ^ c.length + chunkMeasure rest := by
        simp [chunkMeasure]
      obtain ⟨n', rfl⟩ : ∃ n', n = n' + 1 := ⟨n - 1, by omega⟩
      simp only [splitSteps]
      split
      · next hbig =>
        have hc2 : 2 ≤ c.length := by
          by_contra hcon
          interval_cases hcl : c.length
          · have : c = [] := List.length_eq_zero.mp hcl
            rw [this] at hbig
            have : joinNL [] = "" := rfl
            rw [this] at hbig
            omega
          · obtain ⟨l, rfl⟩ : ∃ l, c = [l] := List.length_eq_one.mp hcl
            rw [joinNL_singleton] at hbig
            have := hl [l] (List.mem_cons_self _ _) l (List.mem_singleton.mpr rfl)
            omega
        have hmid1 : 1 ≤ c.length / 2 := by omega
        have hmid2 : 1 ≤ c.length - c.length / 2 := by omega
        have hlen_take : (c.take (c.length / 2)).length = c.length / 2 := by
          rw [List.length_take]
          omega
        have hlen_drop : (c.drop (c.length / 2)).length = c.length - c.length / 2 := by
          rw [List.length_drop]
        have hsplit : 3 ^ (c.take (c.length / 2)).length + 3 ^ (c.drop (c.length / 2)).length + 1
            ≤ 3 ^ c.length := by
          rw [hlen_take, hlen_drop]
          have := pow3_split (c.length / 2) (c.length - c.length / 2) hmid1 hmid2
          rw [Nat.add_sub_cancel' (Nat.div_le_self _ _)] at this
          exact this
        apply ih n' (by omega)
        · have : chunkMeasure (c.take (c.length / 2) :: c.drop (c.length / 2) :: rest) =
              3 ^ (c.take (c.length / 2)).length + (3 ^ (c.drop (c.length / 2)).length +
                chunkMeasure rest) := by
            simp [chunkMeasure]
          omega
        · intro c' hc' l hlmem
          rcases List.mem_cons.mp hc' with h1 | hc2
          · exact hl c (List.mem_cons_self _ _) l (List.take_subset _ _ (h1 ▸ hlmem))
          · rcases List.mem_cons.mp hc2 with h2 | hc3
            · exact hl c (List.mem_cons_self _ _) l (List.drop_subset _ _ (h2 ▸ hlmem))
            · exact hl c' (List.mem_cons_of_mem _ hc3) l hlmem
      · rw [isSome_optionMap]
        apply ih n' (by omega)
        · omega
        · intro c' hc' l hlmem
          exact hl c' (List.mem_cons_of_mem _ hc') l hlmem

/-- C6 (amended): the recursive-split pass terminates on every finite
chunk sequence in which each single line is within the 2000-token bound
(and the empty string counts within the bound, as `countTokens('') = 0`
in the source); a chunk of `≥ 2` lines is strictly split by the
line-midpoint step, and singleton chunks then pass the check.  Without
the line bound the pass can run forever (see the counterexample). -/
theorem c6_split_terminates (tok : String → Nat) (cs : List (List String))
    (h0 : tok "" ≤ 2000) (hl : ∀ c ∈ cs, ∀ l ∈ c, tok l ≤ 2000) :
    splitTerminates tok cs :=
  ⟨chunkMeasure cs,
   splitSteps_terminates_of_line_bound tok h0 (chunkMeasure cs) cs le_rfl hl⟩

/-- Witness for C6 on a concrete chunk sequence under the length tokenizer. -/
theorem c6_witness :
    (fun s : String => s.length) "" ≤ 2000 ∧
    (∀ c ∈ [["ab"], ["c", "d"]], ∀ l ∈ c, (fun s : String => s.length) l ≤ 2000) ∧
    splitTerminates (fun s : String => s.length) [["ab"], ["c", "d"]] :=
  ⟨by decide, by decide,
   c6_split_terminates (fun s : String => s.length) [["ab"], ["c", "d"]] (by decide) (by decide)⟩

/-- Head-position worklists starting with the oversized one-line chunk
`["x"]` never finish under `tokBad`: the midpoint split of a singleton is
`[] ++ ["x"]`, which reproduces the same worklist after the empty chunk is
passed. -/
theorem splitSteps_tokBad_none :
    ∀ (n : Nat) (rest : List (List String)),
      splitSteps tokBad n (["x"] :: rest) = none := by
  have step1 : ∀ (m : Nat) (rest : List (List String)),
      splitSteps tokBad (m + 1) (["x"] :: rest) =
        splitSteps tokBad m ([] :: ["x"] :: rest) := fun _ _ => rfl
  have step2 : ∀ (k : Nat) (rest : List (List String)),
      splitSteps tokBad (k + 1) ([] :: ["x"] :: rest) =
        (splitSteps tokBad k (["x"] :: rest)).map (fun out => [] :: out) :=
    fun _ _ => rfl
  intro n
  induction n using Nat.strong_induction_on with
  | _ n ih =>
    intro rest
    cases n with
    | zero => rfl
    | succ m =>
      rw [step1]
      cases m with
      | zero => rfl
      | succ k =>
        rw [step2, ih k (by omega) rest]
        rfl

/-- Counterexample to C6 as stated: on the chunk sequence `[["x"]]` with a
tokenizer counting 2001 tokens for every non-empty string (and 0 for the
empty string, as the source guarantees), the splice loop never reaches a
sequence with no chunk left to split — the JS pass loops forever, because
the midpoint split of a one-line chunk does not halve it. -/
theorem c6_counterexample : ¬ splitTerminates tokBad [["x"]] := by
  rintro ⟨n, hn⟩
  rw [show ([["x"]] : List (List String)) = ["x"] :: [] from rfl,
    splitSteps_tokBad_none n []] at hn
  cases hn

/-! ## Pipeline infrastructure lemmas -/

/-- Appending one request extends a per-chunk-budget-safe trace when the
new request is itself within budget (or not a per-chunk request). -/
theorem promptBudgetOk_append (tok : String → Nat) (tr : List Req) (r : Req)
    (h : promptBudgetOk tok tr)
    (hr : (r.kind = ReqKind.chunkInitial ∨ r.kind = ReqKind.chunkContinuation) →
      tok r.prompt ≤ maxPromptTokens) :
    promptBudgetOk tok (tr ++ [r]) := by
  intro r' hmem hk
  rcases List.mem_append.mp hmem with hm | hm
  · exact h r' hm hk
  · have he : r' = r := List.mem_singleton.mp hm
    subst he
    exact hr hk

/-- Counting one appended request. -/
theorem countKind_append_one (k : ReqKind) (tr : List Req) (r : Req) :
    countKind k (tr ++ [r]) = countKind k tr + (if r.kind = k then 1 else 0) := by
  unfold countKind
  rw [List.countP_append]
  by_cases hk : r.kind = k <;> simp [List.countP_cons, hk]

/-- A fully successful trace extends by one more successful call. -/
theorem callsOkBefore_append (client : Client) (tr : List Req) (r : Req)
    (h : callsOkBefore client tr) (hc : clientOk client tr.length = true) :
    callsOkBefore client (tr ++ [r]) := by
  intro j hj
  rw [List.length_append, List.length_singleton] at hj
  rcases Nat.lt_succ_iff_lt_or_eq.mp hj with hj' | hj'
  · exact h j hj'
  · rw [hj']
    exact hc

/-- A fully successful trace extended by one failing call stops at that
first error. -/
theorem stoppedAtError_append (client : Client) (tr : List Req) (r : Req)
    (h : callsOkBefore client tr) (hc : clientOk client tr.length = false) :
    stoppedAtError client (tr ++ [r]) := by
  refine ⟨by simp, ?_, ?_⟩
  · rw [List.length_append, List.length_singleton, Nat.add_sub_cancel]
    exact hc
  · intro j hj
    rw [List.length_append, List.length_singleton, Nat.add_sub_cancel] at hj
    exact h j hj

/-- A string extended through the `"\n\n"` separator is never empty. -/
theorem append_sep_ne_empty (a b : String) : a ++ "\n\n" ++ b ≠ "" := by
  intro h
  have hlen : (a ++ "\n\n" ++ b).length = 0 := by rw [h]; rfl
  rw [String.length_append, String.length_append] at hlen
  have : ("\n\n" : String).length = 2 := rfl
  omega

/-- The per-chunk loop preserves budget-safety of per-chunk prompts: every
per-chunk request it adds was checked against `maxPromptTokens` before
submission. -/
theorem pbc_promptBudget (tok : String → Nat) (client : Client) :
    ∀ (chunks : List (List String)) (i : Nat) (bs : String) (tr : List Req) (br : Nat),
      promptBudgetOk tok tr →
      promptBudgetOk tok (traceOfRes (processBatchChunks tok client chunks i bs tr br)) := by
  intro chunks
  induction chunks with
  | nil => intro i bs tr br h; exact h
  | cons chunk rest ih =>
    intro i bs tr br h
    by_cases hp : i = 0 ∧ bs = "" <;>
      [simp only [processBatchChunks, if_pos hp]; simp only [processBatchChunks, if_neg hp]] <;>
      [by_cases hb : maxPromptTokens < tok (getInitialPrompt (joinNL chunk));
       by_cases hb : maxPromptTokens < tok (getContinuationPrompt bs (joinNL chunk))] <;>
      [rw [if_pos hb]; rw [if_neg hb]; rw [if_pos hb]; rw [if_neg hb]]
    · exact h
    · unfold callClient
      cases hcl : client tr.length with
      | ok text =>
        dsimp only
        exact ih _ _ _ _ (promptBudgetOk_append tok tr _ h (fun _ => Nat.le_of_not_lt hb))
      | error e =>
        dsimp only
        exact promptBudgetOk_append tok tr _ h (fun _ => Nat.le_of_not_lt hb)
    · exact h
    · unfold callClient
      cases hcl : client tr.length with
      | ok text =>
        dsimp only
        exact ih _ _ _ _ (promptBudgetOk_append tok tr _ h (fun _ => Nat.le_of_not_lt hb))
      | error e =>
        dsimp only
        exact promptBudgetOk_append tok tr _ h (fun _ => Nat.le_of_not_lt hb)

/-- The per-chunk loop adds only per-chunk requests: counts of other call
sites are unchanged, whether it completes or fails. -/
theorem pbc_countKind (tok : String → Nat) (client : Client) (k : ReqKind)
    (h1 : k ≠ ReqKind.chunkInitial) (h2 : k ≠ ReqKind.chunkContinuation) :
    ∀ (chunks : List (List String)) (i : Nat) (bs : String) (tr : List Req) (br : Nat),
      countKind k (traceOfRes (processBatchChunks tok client chunks i bs tr br)) =
        countKind k tr := by
  intro chunks
  induction chunks with
  | nil => intro i bs tr br; rfl
  | cons chunk rest ih =>
    intro i bs tr br
    by_cases hp : i = 0 ∧ bs = "" <;>
      [simp only [processBatchChunks, if_pos hp]; simp only [processBatchChunks, if_neg hp]] <;>
      [by_cases hb : maxPromptTokens < tok (getInitialPrompt (joinNL chunk));
       by_cases hb : maxPromptTokens < tok (getContinuationPrompt bs (joinNL chunk))] <;>
      [rw [if_pos hb]; rw [if_neg hb]; rw [if_pos hb]; rw [if_neg hb]]
    · rfl
    · unfold callClient
      cases hcl : client tr.length with
      | ok text =>
        dsimp only
        rw [ih, countKind_append_one, if_neg (fun hh => h1 hh.symm), Nat.add_zero]
      | error e =>
        dsimp only [traceOfRes]
        rw [countKind_append_one, if_neg (fun hh => h1 hh.symm), Nat.add_zero]
    · rfl
    · unfold callClient
      cases hcl : client tr.length with
      | ok text =>
        dsimp only
        rw [ih, countKind_append_one, if_neg (fun hh => h2 hh.symm), Nat.add_zero]
      | error e =>
        dsimp only [traceOfRes]
        rw [countKind_append_one, if_neg (fun hh => h2 hh.symm), Nat.add_zero]

/-- Call-success bookkeeping of the per-chunk loop: a successful pass keeps
every traced call successful; a failing pass stops at the first error. -/
theorem pbc_callsOk (tok : String → Nat) (client : Client) :
    ∀ (chunks : List (List String)) (i : Nat) (bs : String) (tr : List Req) (br : Nat),
      callsOkBefore client tr →
      (∀ bs2 tr2 br2,
        processBatchChunks tok client chunks i bs tr br = Except.ok (bs2, tr2, br2) →
        callsOkBefore client tr2) ∧
      (∀ tr2 br2,
        processBatchChunks tok client chunks i bs tr br = Except.error (tr2, br2) →
        stoppedAtError client tr2) := by
  intro chunks
  induction chunks with
  | nil =>
    intro i bs tr br h
    constructor
    · intro bs2 tr2 br2 heq
      simp only [processBatchChunks, Except.ok.injEq, Prod.mk.injEq] at heq
      rw [← heq.2.1]
      exact h
    · intro tr2 br2 heq
      simp only [processBatchChunks] at heq
      exact Except.noConfusion heq
  | cons chunk rest ih =>
    intro i bs tr br h
    by_cases hp : i = 0 ∧ bs = "" <;>
      [simp only [processBatchChunks, if_pos hp]; simp only [processBatchChunks, if_neg hp]] <;>
      [by_cases hb : maxPromptTokens < tok (getInitialPrompt (joinNL chunk));
       by_cases hb : maxPromptTokens < tok (getContinuationPrompt bs (joinNL chunk))] <;>
      [rw [if_pos hb]; rw [if_neg hb]; rw [if_pos hb]; rw [if_neg hb]] <;>
      [skip;
       (unfold callClient; cases hcl : client tr.length with
        | ok text =>
          dsimp only
          exact ih _ _ _ _ (callsOkBefore_append client tr _ h
            (by unfold clientOk; rw [hcl]))
        | error e =>
          dsimp only
          constructor
          · intro bs2 tr2 br2 heq
            exact Except.noConfusion heq
          · intro tr2 br2 heq
            simp only [Except.error.injEq, Prod.mk.injEq] at heq
            rw [← heq.1]
            exact stoppedAtError_append client tr _ h (by unfold clientOk; rw [hcl]));
       skip;
       (unfold callClient; cases hcl : client tr.length with
        | ok text =>
          dsimp only
          exact ih _ _ _ _ (callsOkBefore_append client tr _ h
            (by unfold clientOk; rw [hcl]))
        | error e =>
          dsimp only
          constructor
          · intro bs2 tr2 br2 heq
            exact Except.noConfusion heq
          · intro tr2 br2 heq
            simp only [Except.error.injEq, Prod.mk.injEq] at heq
            rw [← heq.1]
            exact stoppedAtError_append client tr _ h (by unfold clientOk; rw [hcl]))] <;>
      (constructor
       · intro bs2 tr2 br2 heq
         simp only [Except.ok.injEq, Prod.mk.injEq] at heq
         rw [← heq.2.1]
         exact h
       · intro tr2 br2 heq
         exact Except.noConfusion heq)

/-- The break counter of the per-chunk loop never decreases. -/
theorem pbc_br_mono (tok : String → Nat) (client : Client) :
    ∀ (chunks : List (List String)) (i : Nat) (bs : String) (tr : List Req) (br : Nat)
      (bs2 : String) (tr2 : List Req) (br2 : Nat),
      processBatchChunks tok client chunks i bs tr br = Except.ok (bs2, tr2, br2) →
      br ≤ br2 := by
  intro chunks
  induction chunks with
  | nil =>
    intro i bs tr br bs2 tr2 br2 heq
    simp only [processBatchChunks, Except.ok.injEq, Prod.mk.injEq] at heq
    omega
  | cons chunk rest ih =>
    intro i bs tr br bs2 tr2 br2 heq
    by_cases hp : i = 0 ∧ bs = "" <;>
      [simp only [processBatchChunks, if_pos hp] at heq;
       simp only [processBatchChunks, if_neg hp] at heq] <;>
      [by_cases hb : maxPromptTokens < tok (getInitialPrompt (joinNL chunk));
       by_cases hb : maxPromptTokens < tok (getContinuationPrompt bs (joinNL chunk))] <;>
      [rw [if_pos hb] at heq; rw [if_neg hb] at heq;
       rw [if_pos hb] at heq; rw [if_neg hb] at heq] <;>
      [skip;
       (unfold callClient at heq;
        cases hcl : client tr.length with
        | error e =>
          rw [hcl] at heq
          dsimp only at heq
          exact Except.noConfusion heq
        | ok text =>
          rw [hcl] at heq
          dsimp only at heq
          exact ih _ _ _ _ _ _ _ heq);
       skip;
       (unfold callClient at heq;
        cases hcl : client tr.length with
        | error e =>
          rw [hcl] at heq
          dsimp only at heq
          exact Except.noConfusion heq
        | ok text =>
          rw [hcl] at heq
          dsimp only at heq
          exact ih _ _ _ _ _ _ _ heq)] <;>
      (simp only [Except.ok.injEq, Prod.mk.injEq] at heq; omega)

/-- With non-empty completion responses and no budget break, the per-chunk
loop leaves a non-empty batch summary whenever it either starts from one or
processes at least one chunk. -/
theorem pbc_ne (tok : String → Nat) (client : Client)
    (hne : ∀ n s, client n = Except.ok s → s ≠ "") :
    ∀ (chunks : List (List String)) (i : Nat) (bs : String) (tr : List Req) (br : Nat)
      (bs2 : String) (tr2 : List Req) (br2 : Nat),
      processBatchChunks tok client chunks i bs tr br = Except.ok (bs2, tr2, br2) →
      br2 = br → (bs ≠ "" ∨ chunks ≠ []) → bs2 ≠ "" := by
  intro chunks
  induction chunks with
  | nil =>
    intro i bs tr br bs2 tr2 br2 heq hbr hor
    simp only [processBatchChunks, Except.ok.injEq, Prod.mk.injEq] at heq
    rcases hor with hbs | habs
    · rw [← heq.1]
      exact hbs
    · exact absurd rfl habs
  | cons chunk rest ih =>
    intro i bs tr br bs2 tr2 br2 heq hbr hor
    by_cases hp : i = 0 ∧ bs = "" <;>
      [simp only [processBatchChunks, if_pos hp] at heq;
       simp only [processBatchChunks, if_neg hp] at heq] <;>
      [by_cases hb : maxPromptTokens < tok (getInitialPrompt (joinNL chunk));
       by_cases hb : maxPromptTokens < tok (getContinuationPrompt bs (joinNL chunk))] <;>
      [rw [if_pos hb] at heq; rw [if_neg hb] at heq;
       rw [if_pos hb] at heq; rw [if_neg hb] at heq] <;>
      [skip;
       (unfold callClient at heq;
        cases hcl : client tr.length with
        | error e =>
          rw [hcl] at heq
          dsimp only at heq
          exact Except.noConfusion heq
        | ok text =>
          rw [hcl] at heq
          dsimp only at heq
          refine ih _ _ _ _ _ _ _ heq hbr (Or.inl ?_)
          split
          · exact hne tr.length _ hcl
          · exact append_sep_ne_empty _ _);
       skip;
       (unfold callClient at heq;
        cases hcl : client tr.length with
        | error e =>
          rw [hcl] at heq
          dsimp only at heq
          exact Except.noConfusion heq
        | ok text =>
          rw [hcl] at heq
          dsimp only at heq
          refine ih _ _ _ _ _ _ _ heq hbr (Or.inl ?_)
          split
          · exact hne tr.length _ hcl
          · exact append_sep_ne_empty _ _)] <;>
      (simp only [Except.ok.injEq, Prod.mk.injEq] at heq; omega)

/-- The batch loop preserves budget-safety of per-chunk prompts
(consolidation requests are not per-chunk requests). -/
theorem pb_promptBudget (tok : String → Nat) (client : Client) :
    ∀ (batches : List (List (List String))) (full : String) (tr : List Req) (br : Nat),
      promptBudgetOk tok tr →
      promptBudgetOk tok (traceOfRes (processBatches tok client batches full tr br)) := by
  intro batches
  induction batches with
  | nil => intro full tr br h; exact h
  | cons batch rest ih =>
    intro full tr br h
    simp only [processBatches]
    cases hpc : processBatchChunks tok client batch 0 "" tr br with
    | error e =>
      dsimp only
      have h2 := pbc_promptBudget tok client batch 0 "" tr br h
      rw [hpc] at h2
      exact h2
    | ok v =>
      obtain ⟨bs, trM, brM⟩ := v
      have h2 := pbc_promptBudget tok client batch 0 "" tr br h
      rw [hpc] at h2
      dsimp only [traceOfRes] at h2
      dsimp only
      split
      · exact ih _ _ _ h2
      · unfold callClient
        cases hcl : client trM.length with
        | ok resp =>
          dsimp only
          exact ih _ _ _ (promptBudgetOk_append tok trM _ h2
            (fun hk => by rcases hk with hk | hk <;> exact ReqKind.noConfusion hk))
        | error e =>
          dsimp only
          exact promptBudgetOk_append tok trM _ h2
            (fun hk => by rcases hk with hk | hk <;> exact ReqKind.noConfusion hk)

/-- The batch loop adds only per-chunk and consolidation requests: counts
of other call sites are unchanged, whether it completes or fails. -/
theorem pb_countKind (tok : String → Nat) (client : Client) (k : ReqKind)
    (h1 : k ≠ ReqKind.chunkInitial) (h2 : k ≠ ReqKind.chunkContinuation)
    (h3 : k ≠ ReqKind.consolidation) :
    ∀ (batches : List (List (List String))) (full : String) (tr : List Req) (br : Nat),
      countKind k (traceOfRes (processBatches tok client batches full tr br)) =
        countKind k tr := by
  intro batches
  induction batches with
  | nil => intro full tr br; rfl
  | cons batch rest ih =>
    intro full tr br
    simp only [processBatches]
    cases hpc : processBatchChunks tok client batch 0 "" tr br with
    | error e =>
      dsimp only
      have h4 := pbc_countKind tok client k h1 h2 batch 0 "" tr br
      rw [hpc] at h4
      exact h4
    | ok v =>
      obtain ⟨bs, trM, brM⟩ := v
      have h4 := pbc_countKind tok client k h1 h2 batch 0 "" tr br
      rw [hpc] at h4
      dsimp only [traceOfRes] at h4
      dsimp only
      split
      · rw [ih, h4]
      · unfold callClient
        cases hcl : client trM.length with
        | ok resp =>
          dsimp only
          rw [ih, countKind_append_one, if_neg (fun hh => h3 hh.symm), Nat.add_zero, h4]
        | error e =>
          dsimp only [traceOfRes]
          rw [countKind_append_one, if_neg (fun hh => h3 hh.symm), Nat.add_zero, h4]

/-- Call-success bookkeeping of the batch loop. -/
theorem pb_callsOk (tok : String → Nat) (client : Client) :
    ∀ (batches : List (List (List String))) (full : String) (tr : List Req) (br : Nat),
      callsOkBefore client tr →
      (∀ f2 tr2 br2,
        processBatches tok client batches full tr br = Except.ok (f2, tr2, br2) →
        callsOkBefore client tr2) ∧
      (∀ tr2 br2,
        processBatches tok client batches full tr br = Except.error (tr2, br2) →
        stoppedAtError client tr2) := by
  intro batches
  induction batches with
  | nil =>
    intro full tr br h
    constructor
    · intro f2 tr2 br2 heq
      simp only [processBatches, Except.ok.injEq, Prod.mk.injEq] at heq
      rw [← heq.2.1]
      exact h
    · intro tr2 br2 heq
      simp only [processBatches] at heq
      exact Except.noConfusion heq
  | cons batch rest ih =>
    intro full tr br h
    simp only [processBatches]
    cases hpc : processBatchChunks tok client batch 0 "" tr br with
    | error e =>
      obtain ⟨etr, ebr⟩ := e
      dsimp only
      constructor
      · intro f2 tr2 br2 heq
        exact Except.noConfusion heq
      · intro tr2 br2 heq
        simp only [Except.error.injEq, Prod.mk.injEq] at heq
        rw [← heq.1]
        exact (pbc_callsOk tok client batch 0 "" tr br h).2 etr ebr hpc
    | ok v =>
      obtain ⟨bs, trM, brM⟩ := v
      have hM : callsOkBefore client trM :=
        (pbc_callsOk tok client batch 0 "" tr br h).1 bs trM brM hpc
      dsimp only
      split
      · exact ih _ _ _ hM
      · unfold callClient
        cases hcl : client trM.length with
        | ok resp =>
          dsimp only
          exact ih _ _ _ (callsOkBefore_append client trM _ hM
            (by unfold clientOk; rw [hcl]))
        | error e =>
          dsimp only
          constructor
          · intro f2 tr2 br2 heq
            exact Except.noConfusion heq
          · intro tr2 br2 heq
            simp only [Except.error.injEq, Prod.mk.injEq] at heq
            rw [← heq.1]
            exact stoppedAtError_append client trM _ hM (by unfold clientOk; rw [hcl])

/-- The break counter of the batch loop never decreases. -/
theorem pb_br_mono (tok : String → Nat) (client : Client) :
    ∀ (batches : List (List (List String))) (full : String) (tr : List Req) (br : Nat)
      (f2 : String) (tr2 : List Req) (br2 : Nat),
      processBatches tok client batches full tr br = Except.ok (f2, tr2, br2) →
      br ≤ br2 := by
  intro batches
  induction batches with
  | nil =>
    intro full tr br f2 tr2 br2 heq
    simp only [processBatches, Except.ok.injEq, Prod.mk.injEq] at heq
    omega
  | cons batch rest ih =>
    intro full tr br f2 tr2 br2 heq
    simp only [processBatches] at heq
    cases hpc : processBatchChunks tok client batch 0 "" tr br with
    | error e =>
      rw [hpc] at heq
      dsimp only at heq
      exact Except.noConfusion heq
    | ok v =>
      obtain ⟨bs, trM, brM⟩ := v
      rw [hpc] at heq
      have hbrM := pbc_br_mono tok client batch 0 "" tr br bs trM brM hpc
      dsimp only at heq
      split at heq
      · exact le_trans hbrM (ih _ _ _ _ _ _ heq)
      · unfold callClient at heq
        cases hcl : client trM.length with
        | ok resp =>
          rw [hcl] at heq
          dsimp only at heq
          exact le_trans hbrM (ih _ _ _ _ _ _ heq)
        | error e =>
          rw [hcl] at heq
          dsimp only at heq
          exact Except.noConfusion heq

/-- Consolidation counting for a successful batch loop with no budget
breaks and non-empty completion responses: one consolidation call per
batch, except none for a batch entered with an empty running summary, and
the running summary leaves empty only if it entered empty with no batch to
process. -/
theorem pb_consol (tok : String → Nat) (client : Client)
    (hne : ∀ n s, client n = Except.ok s → s ≠ "") :
    ∀ (batches : List (List (List String))) (full : String) (tr : List Req) (br : Nat)
      (f2 : String) (tr2 : List Req) (br2 : Nat),
      (∀ b ∈ batches, b ≠ []) →
      processBatches tok client batches full tr br = Except.ok (f2, tr2, br2) →
      br2 = br →
      countKind ReqKind.consolidation tr2 =
        countKind ReqKind.consolidation tr +
          (if full = "" then batches.length - 1 else batches.length) ∧
      (f2 = "" ↔ (full = "" ∧ batches = [])) := by
  intro batches
  induction batches with
  | nil =>
    intro full tr br f2 tr2 br2 _ heq _
    simp only [processBatches, Except.ok.injEq, Prod.mk.injEq] at heq
    obtain ⟨hf, htr, _⟩ := heq
    constructor
    · rw [htr]
      split <;> simp
    · rw [hf]
      simp
  | cons batch rest ih =>
    intro full tr br f2 tr2 br2 hbne heq hbr
    simp only [processBatches] at heq
    cases hpc : processBatchChunks tok client batch 0 "" tr br with
    | error e =>
      rw [hpc] at heq
      dsimp only at heq
      exact Except.noConfusion heq
    | ok v =>
      obtain ⟨bs, trM, brM⟩ := v
      rw [hpc] at heq
      have hbrM : br ≤ brM := pbc_br_mono tok client batch 0 "" tr br bs trM brM hpc
      have hcntM := pbc_countKind tok client ReqKind.consolidation (by decide) (by decide)
        batch 0 "" tr br
      rw [hpc] at hcntM
      dsimp only [traceOfRes] at hcntM
      dsimp only at heq
      split at heq
      · next hfull =>
        have hbrEq : brM = br := by
          have := pb_br_mono tok client rest bs trM brM f2 tr2 br2 heq
          omega
        have hbs : bs ≠ "" :=
          pbc_ne tok client hne batch 0 "" tr br bs trM brM hpc hbrEq
            (Or.inr (hbne batch (List.mem_cons_self _ _)))
        obtain ⟨hcount, hiff⟩ := ih bs trM brM f2 tr2 br2
          (fun b hb => hbne b (List.mem_cons_of_mem _ hb)) heq (by omega)
        constructor
        · rw [hcount, hcntM, if_neg hbs, if_pos hfull]
          simp [List.length_cons]
        · constructor
          · intro hf2
            exact absurd (hiff.mp hf2).1 hbs
          · rintro ⟨_, hcontra⟩
            exact List.noConfusion hcontra
      · next hfull =>
        unfold callClient at heq
        cases hcl : client trM.length with
        | error e =>
          rw [hcl] at heq
          dsimp only at heq
          exact Except.noConfusion heq
        | ok resp =>
          rw [hcl] at heq
          dsimp only at heq
          have hresp : resp ≠ "" := hne trM.length resp hcl
          have hbrEq : brM = br := by
            have := pb_br_mono tok client rest resp _ brM f2 tr2 br2 heq
            omega
          obtain ⟨hcount, hiff⟩ := ih resp _ brM f2 tr2 br2
            (fun b hb => hbne b (List.mem_cons_of_mem _ hb)) heq (by omega)
          constructor
          · rw [hcount, countKind_append_one, if_pos rfl, hcntM, if_neg hresp, if_neg hfull]
            simp [List.length_cons]
            omega
          · constructor
            · intro hf2
              exact absurd (hiff.mp hf2).1 hresp
            · rintro ⟨_, hcontra⟩
              exact List.noConfusion hcontra

/-- JS batching slices produce `ceil(chunkCount / BATCH_SIZE)` batches. -/
theorem toBatches_length : ∀ cs : List (List String),
    (toBatches cs).length = (cs.length + 1) / 2
  | [] => rfl
  | [_] => by
    simp only [toBatches, List.length_cons, List.length_nil]
  | _ :: _ :: rest => by
    simp only [toBatches, List.length_cons, toBatches_length rest]
    omega

/-- Every batch produced by the JS slicing holds at least one chunk. -/
theorem toBatches_ne : ∀ cs : List (List String), ∀ b ∈ toBatches cs, b ≠ []
  | [], _, hb => absurd hb (List.not_mem_nil _)
  | [c], b, hb => by
    rw [List.mem_singleton.mp hb]
    exact List.cons_ne_nil _ _
  | c1 :: c2 :: rest, b, hb => by
    rcases List.mem_cons.mp hb with h | h
    · rw [h]
      exact List.cons_ne_nil _ _
    · exact toBatches_ne rest b h

/-- An empty trace trivially has all calls successful. -/
theorem callsOkBefore_nil (client : Client) : callsOkBefore client [] := by
  intro j hj
  simp at hj

/-! ## Claim C1: prompt-budget enforcement -/

/-- C1 (amended): every per-chunk (initial or continuation) completion
request submitted during any run of `summarizeWithLLM` has a prompt of at
most `maxPromptTokens = 3800` tokens, and an oversized per-chunk prompt
stops the batch at once (the batch summary accumulated so far is kept and
the remaining chunks of the batch are skipped); consolidation and
refinement requests, however, are submitted without any token check and
can exceed 3800 tokens (see the counterexample). -/
theorem c1_per_chunk_prompt_budget :
    (∀ (tok : String → Nat) (client : Client) (fuel : Nat) (msgs : List Msg) (out : RunOut),
      summarizeWithLLM tok client fuel msgs = some out →
      ∀ r ∈ out.trace,
        (r.kind = ReqKind.chunkInitial ∨ r.kind = ReqKind.chunkContinuation) →
        tok r.prompt ≤ maxPromptTokens) ∧
    (∀ (tok : String → Nat) (client : Client) (chunk : List String)
        (rest : List (List String)) (i : Nat) (bs : String) (tr : List Req) (br : Nat),
      maxPromptTokens < tok (if i = 0 ∧ bs = "" then getInitialPrompt (joinNL chunk)
        else getContinuationPrompt bs (joinNL chunk)) →
      processBatchChunks tok client (chunk :: rest) i bs tr br =
        Except.ok (bs, tr, br + 1)) := by
  constructor
  · intro tok client fuel msgs out h r hr hk
    unfold summarizeWithLLM at h
    cases hsp : splitSteps tok fuel (createTokenBasedChunks tok msgs formatMessageCompact) with
    | none => rw [hsp, Option.map_none'] at h; exact Option.noConfusion h
    | some cs =>
      rw [hsp] at h
      simp only [Option.map_some', Option.some.injEq] at h
      subst h
      have hbase := pb_promptBudget tok client (toBatches cs) "" [] 0
        (fun r' hmem _ => absurd hmem (List.not_mem_nil _))
      unfold runPipeline at hr
      revert hr
      cases hpb : processBatches tok client (toBatches cs) "" [] 0 with
      | error e =>
        obtain ⟨etr, ebr⟩ := e
        rw [hpb] at hbase
        dsimp only [traceOfRes] at hbase
        dsimp only
        intro hr
        exact hbase r hr hk
      | ok v =>
        obtain ⟨full, tr, br⟩ := v
        rw [hpb] at hbase
        dsimp only [traceOfRes] at hbase
        dsimp only
        split
        · unfold callClient
          cases hcl : client tr.length with
          | error e =>
            dsimp only
            intro hr
            exact promptBudgetOk_append tok tr _ hbase
              (fun hkk => by rcases hkk with hkk | hkk <;> exact ReqKind.noConfusion hkk)
              r hr hk
          | ok resp =>
            dsimp only
            intro hr
            exact promptBudgetOk_append tok tr _ hbase
              (fun hkk => by rcases hkk with hkk | hkk <;> exact ReqKind.noConfusion hkk)
              r hr hk
        · intro hr
          exact hbase r hr hk
  · intro tok client chunk rest i bs tr br hbig
    by_cases hp : i = 0 ∧ bs = ""
    · rw [if_pos hp] at hbig
      simp only [processBatchChunks, if_pos hp, if_pos hbig]
    · rw [if_neg hp] at hbig
      simp only [processBatchChunks, if_neg hp, if_pos hbig]

set_option maxRecDepth 6000 in
/-- Witness for C1 at a concrete one-chunk run: the initial request of the
run is within budget, and a concrete oversized continuation prompt stops
the loop. -/
theorem c1_witness :
    summarizeWithLLM tokW clientA 5 msgsW = some outW ∧
    reqW ∈ outW.trace ∧ reqW.kind = ReqKind.chunkInitial ∧
    tokW reqW.prompt ≤ maxPromptTokens := by
  have htr : outW.trace = [reqW] := rfl
  refine ⟨rfl, by rw [htr]; exact List.mem_singleton.mpr rfl, rfl, ?_⟩
  exact c1_per_chunk_prompt_budget.1 tokW clientA 5 msgsW outW rfl reqW
    (by rw [htr]; exact List.mem_singleton.mpr rfl) (Or.inl rfl)

set_option maxRecDepth 6000 in
/-- Counterexample to C1 as stated: in the concrete run over `msgsCE1`,
the consolidation request is submitted although its prompt counts 9999
tokens under `tokCE1`, far over the 3800-token ceiling — the budget check guards only
per-chunk prompts. -/
theorem c1_counterexample :
    ((summarizeWithLLM tokCE1 clientCE1 10 msgsCE1).getD dfltOut).trace.any
      (fun r => decide (r.kind = ReqKind.consolidation) &&
        decide (maxPromptTokens < tokCE1 r.prompt)) = true := rfl

/-! ## Claim C3: fallback on completion failure -/

/-- C3: if any completion call fails, `summarizeWithLLM` returns exactly
the fixed fallback string: the failing call is the last one submitted
(every earlier call succeeded, none follows), and the run yields no
partial summary. -/
theorem c3_error_yields_fallback (tok : String → Nat) (client : Client) (fuel : Nat)
    (msgs : List Msg) (out : RunOut)
    (h : summarizeWithLLM tok client fuel msgs = some out)
    (he : out.errored = true) :
    out.result = fallbackMessage ∧ out.trace ≠ [] ∧
    clientOk client (out.trace.length - 1) = false ∧
    ∀ j, j < out.trace.length - 1 → clientOk client j = true := by
  unfold summarizeWithLLM at h
  cases hsp : splitSteps tok fuel (createTokenBasedChunks tok msgs formatMessageCompact) with
  | none => rw [hsp, Option.map_none'] at h; exact Option.noConfusion h
  | some cs =>
    rw [hsp] at h
    simp only [Option.map_some', Option.some.injEq] at h
    subst h
    have hcalls := pb_callsOk tok client (toBatches cs) "" [] 0 (callsOkBefore_nil client)
    unfold runPipeline at he ⊢
    revert he
    cases hpb : processBatches tok client (toBatches cs) "" [] 0 with
    | error e =>
      obtain ⟨etr, ebr⟩ := e
      dsimp only
      intro _
      obtain ⟨hn, hl, ha⟩ := hcalls.2 etr ebr hpb
      exact ⟨rfl, hn, hl, ha⟩
    | ok v =>
      obtain ⟨full, tr, br⟩ := v
      have htr : callsOkBefore client tr := hcalls.1 full tr br hpb
      dsimp only
      split
      · unfold callClient
        cases hcl : client tr.length with
        | error e =>
          dsimp only
          intro _
          obtain ⟨hn, hl, ha⟩ := stoppedAtError_append client tr _ htr
            (by unfold clientOk; rw [hcl])
          exact ⟨rfl, hn, hl, ha⟩
        | ok resp =>
          dsimp only
          intro he
          exact Bool.noConfusion he
      · intro he
        exact Bool.noConfusion he

set_option maxRecDepth 6000 in
/-- Witness for C3 at the concrete run against the always-failing client:
the run returns the fallback string after its single failing call. -/
theorem c3_witness :
    summarizeWithLLM tokW clientErr 5 msgsW = some outErr ∧ outErr.errored = true ∧
    outErr.result = fallbackMessage ∧ outErr.trace ≠ [] ∧
    clientOk clientErr (outErr.trace.length - 1) = false ∧
    ∀ j, j < outErr.trace.length - 1 → clientOk clientErr j = true := by
  have h := c3_error_yields_fallback tokW clientErr 5 msgsW outErr rfl rfl
  exact ⟨rfl, rfl, h.1, h.2.1, h.2.2.1, h.2.2.2⟩

/-! ## Claim C4: refinement gating -/

/-- C4: in every run that completes without a completion-client error, the
refinement call is made exactly once if the post-split chunk count exceeds
`BATCH_SIZE = 2`, and not at all otherwise. -/
theorem c4_refinement_gating (tok : String → Nat) (client : Client) (fuel : Nat)
    (msgs : List Msg) (cs : List (List String)) (out : RunOut)
    (hcs : splitSteps tok fuel (createTokenBasedChunks tok msgs formatMessageCompact) = some cs)
    (h : summarizeWithLLM tok client fuel msgs = some out)
    (he : out.errored = false) :
    countKind ReqKind.refinement out.trace = if BATCH_SIZE < cs.length then 1 else 0 := by
  unfold summarizeWithLLM at h
  rw [hcs] at h
  simp only [Option.map_some', Option.some.injEq] at h
  subst h
  have hcnt := pb_countKind tok client ReqKind.refinement (by decide) (by decide) (by decide)
    (toBatches cs) "" [] 0
  unfold runPipeline at he ⊢
  revert he
  cases hpb : processBatches tok client (toBatches cs) "" [] 0 with
  | error e =>
    obtain ⟨etr, ebr⟩ := e
    dsimp only
    intro he
    exact Bool.noConfusion he
  | ok v =>
    obtain ⟨full, tr, br⟩ := v
    rw [hpb] at hcnt
    dsimp only [traceOfRes] at hcnt
    dsimp only
    split
    · next hgate =>
      unfold callClient
      cases hcl : client tr.length with
      | error e =>
        dsimp only
        intro he
        exact Bool.noConfusion he
      | ok resp =>
        dsimp only
        intro _
        rw [countKind_append_one, hcnt]
        rfl
    · next hgate =>
      dsimp only
      intro _
      rw [hcnt]
      rfl

set_option maxRecDepth 6000 in
/-- Witness for C4 at the concrete three-chunk run: two batches were
processed and exactly one refinement request appears in the trace. -/
theorem c4_witness :
    splitSteps tokCE1 10 (createTokenBasedChunks tokCE1 msgsCE1 formatMessageCompact) =
      some ((splitSteps tokCE1 10
        (createTokenBasedChunks tokCE1 msgsCE1 formatMessageCompact)).getD []) ∧
    summarizeWithLLM tokCE1 clientCE1 10 msgsCE1 = some outW3 ∧
    outW3.errored = false ∧
    countKind ReqKind.refinement outW3.trace =
      if BATCH_SIZE < ((splitSteps tokCE1 10
        (createTokenBasedChunks tokCE1 msgsCE1 formatMessageCompact)).getD []).length
      then 1 else 0 := by
  refine ⟨rfl, rfl, rfl, ?_⟩
  exact c4_refinement_gating tokCE1 clientCE1 10 msgsCE1 _ outW3 rfl rfl rfl

/-! ## Claim C7: consolidation count -/

/-- C7 (amended): in every run that completes without a completion-client
error, in which no per-chunk prompt tripped the 3800-token budget break,
and in which every completion response is a non-empty string, the number
of consolidation calls equals the batch count minus one, where the batch
count is the post-split chunk count divided by `BATCH_SIZE = 2` rounded
up.  (A budget break or an empty response text can leave the running
summary empty, which skips the consolidation step for the next batch —
see the counterexample.) -/
theorem c7_consolidation_count (tok : String → Nat) (client : Client) (fuel : Nat)
    (msgs : List Msg) (cs : List (List String)) (out : RunOut)
    (hcs : splitSteps tok fuel (createTokenBasedChunks tok msgs formatMessageCompact) = some cs)
    (h : summarizeWithLLM tok client fuel msgs = some out)
    (he : out.errored = false)
    (hbr : out.breaks = 0)
    (hne : ∀ n s, client n = Except.ok s → s ≠ "") :
    countKind ReqKind.consolidation out.trace = (cs.length + 1) / 2 - 1 := by
  unfold summarizeWithLLM at h
  rw [hcs] at h
  simp only [Option.map_some', Option.some.injEq] at h
  subst h
  unfold runPipeline at he hbr ⊢
  revert he hbr
  cases hpb : processBatches tok client (toBatches cs) "" [] 0 with
  | error e =>
    obtain ⟨etr, ebr⟩ := e
    dsimp only
    intro he _
    exact Bool.noConfusion he
  | ok v =>
    obtain ⟨full, tr, br⟩ := v
    dsimp only
    split
    · next hgate =>
      unfold callClient
      cases hcl : client tr.length with
      | error e =>
        dsimp only
        intro he _
        exact Bool.noConfusion he
      | ok resp =>
        dsimp only
        intro _ hbr
        obtain ⟨hcount, _⟩ := pb_consol tok client hne (toBatches cs) "" [] 0 full tr br
          (toBatches_ne cs) hpb hbr
        rw [countKind_append_one, if_neg (fun hh => ReqKind.noConfusion hh), Nat.add_zero,
          hcount, if_pos rfl, toBatches_length]
        simp [countKind]
    · next hgate =>
      intro _ hbr
      obtain ⟨hcount, _⟩ := pb_consol tok client hne (toBatches cs) "" [] 0 full tr br
        (toBatches_ne cs) hpb hbr
      rw [hcount, if_pos rfl, toBatches_length]
      simp [countKind]

set_option maxRecDepth 6000 in
/-- Witness for C7 at the concrete one-chunk run: one batch, zero
consolidation calls, matching `ceil(1 / 2) - 1 = 0`. -/
theorem c7_witness :
    splitSteps tokW 5 (createTokenBasedChunks tokW msgsW formatMessageCompact) =
      some ((splitSteps tokW 5
        (createTokenBasedChunks tokW msgsW formatMessageCompact)).getD []) ∧
    summarizeWithLLM tokW clientA 5 msgsW = some outW ∧
    outW.errored = false ∧ outW.breaks = 0 ∧
    (∀ n s, clientA n = Except.ok s → s ≠ "") ∧
    countKind ReqKind.consolidation outW.trace =
      (((splitSteps tokW 5
        (createTokenBasedChunks tokW msgsW formatMessageCompact)).getD []).length + 1) / 2
        - 1 := by
  have hne : ∀ n s, clientA n = Except.ok s → s ≠ "" := by
    intro n s hs
    simp only [clientA, Except.ok.injEq] at hs
    rw [← hs]
    decide
  refine ⟨rfl, rfl, rfl, rfl, hne, ?_⟩
  exact c7_consolidation_count tokW clientA 5 msgsW _ outW rfl rfl rfl rfl hne

set_option maxRecDepth 6000 in
/-- Counterexample to C7 as stated: in the concrete error-free run over
`msgsCE7` the first batch hits the 3800-token budget break, its batch
summary stays empty, and the second batch is therefore absorbed without a
consolidation call: 3 chunks make 2 batches, yet 0 consolidation calls are
performed instead of `ceil(3 / 2) - 1 = 1`. -/
theorem c7_counterexample :
    ((summarizeWithLLM tokCE7 clientA 10 msgsCE7).getD dfltOut).errored = false ∧
    (splitSteps tokCE7 10 (createTokenBasedChunks tokCE7 msgsCE7 formatMessageCompact)).map
      List.length = some 3 ∧
    countKind ReqKind.consolidation
      ((summarizeWithLLM tokCE7 clientA 10 msgsCE7).getD dfltOut).trace = 0 ∧
    (3 + 1) / 2 - 1 ≠ 0 :=
  ⟨rfl, rfl, rfl, by decide⟩

/-! ## Claim C10: all-filtered input -/

/-- C10: if every input message formats to `null` (in particular for an
empty input), the chunker yields no chunks and `summarizeWithLLM` returns
the empty string with no completion request — not the fallback string. -/
theorem c10_all_filtered (tok : String → Nat) (client : Client) (fuel : Nat)
    (msgs : List Msg) (h : ∀ m ∈ msgs, formatMessageCompact m = none) :
    createTokenBasedChunks tok msgs formatMessageCompact = [] ∧
    summarizeWithLLM tok client fuel msgs = some (RunOut.mk "" [] false 0) := by
  have hfm : (msgs.map formatMessageCompact).filterMap id = [] := by
    rw [List.filterMap_eq_nil_iff]
    intro a ha
    rcases List.mem_map.mp ha with ⟨m, hm, rfl⟩
    exact h m hm
  have hchunks : createTokenBasedChunks tok msgs formatMessageCompact = [] := by
    unfold createTokenBasedChunks
    rw [hfm]
    rfl
  refine ⟨hchunks, ?_⟩
  unfold summarizeWithLLM
  rw [hchunks]
  have hsp : splitSteps tok fuel [] = some [] := by cases fuel <;> rfl
  rw [hsp]
  rfl

set_option maxRecDepth 6000 in
/-- Witness for C10 at a concrete media-only message list. -/
theorem c10_witness :
    (∀ m ∈ [Msg.mk 0 "a" "hi" true false none], formatMessageCompact m = none) ∧
    createTokenBasedChunks tokW [Msg.mk 0 "a" "hi" true false none] formatMessageCompact = [] ∧
    summarizeWithLLM tokW clientA 5 [Msg.mk 0 "a" "hi" true false none] =
      some (RunOut.mk "" [] false 0) := by
  have h : ∀ m ∈ [Msg.mk 0 "a" "hi" true false none], formatMessageCompact m = none := by
    decide
  exact ⟨h, c10_all_filtered tokW clientA 5 _ h⟩

end WhatsappSummarizer
